import Mathlib

/-!
Shallow embedding of the CMDB relationship-traversal tool
(`src/tools/relationships.ts`) of the servicenow-mcp server, together with
proofs about its traversal engine, root resolution, reference-field
normalization, class cache and filtering behaviour.

The remote ServiceNow instance is modelled as a `Store` of pure response
functions; the handler and its inner helpers (`getClass`, `extractValue`,
`extractDisplay`, `traverse`) are translated 1:1 into Lean functions.
JavaScript truthiness on optional strings is made explicit (`truthy`,
empty string is falsy), `Set`/`Map` become lists with the same membership
and lookup semantics, and async sequencing becomes explicit state passing.
Ghost fields (`trace`, `classLookups`, `pushLog`) record which remote
calls / expansions / pushes happened; they never influence control flow.
-/

namespace SN

/-- A reference field as returned by the table API with
`sysparm_display_value=all`: either absent/null, a bare string, or an
object that may carry `value`, `display_value` and `link` members. -/
structure FieldObj where
  value : Option String
  display_value : Option String
  link : Option String
deriving DecidableEq, Repr

inductive Field where
  | null
  | str (s : String)
  | obj (o : FieldObj)
deriving DecidableEq, Repr

/-- JS `str.split(sep)` for a single-character separator, on the
character list: `"a//b"` splits into `["a", "", "b"]`, `""` into
`[""]`. -/
def splitChar (sep : Char) : List Char → List (List Char)
  | [] => [[]]
  | c :: rest =>
    let r := splitChar sep rest
    if c = sep then [] :: r
    else
      match r with
      | [] => [[c]]
      | h :: t => (c :: h) :: t

/-- `parts[parts.length - 1]` of `link.split("/")`. -/
def lastSegment (l : String) : String :=
  ⟨(splitChar '/' l.data).getLastD []⟩

/-- `needle` is a prefix of `hay` (character lists). -/
def isPrefixList : List Char → List Char → Bool
  | [], _ => true
  | _ :: _, [] => false
  | a :: as, b :: bs => a == b && isPrefixList as bs

/-- `needle` occurs as a contiguous run inside `hay` (character lists). -/
def hasInfix (needle : List Char) : List Char → Bool
  | [] => needle.isEmpty
  | b :: bs => isPrefixList needle (b :: bs) || hasInfix needle bs

/-- JS `hay.includes(needle)` (substring test; an empty needle is
always contained). -/
def jsIncludes (hay needle : String) : Bool :=
  hasInfix needle.data hay.data

/-- JS `toLowerCase`, restricted to the ASCII range (`Char.toLower`). -/
def jsToLower (s : String) : String :=
  ⟨s.data.map Char.toLower⟩

/-- JS string truthiness for an optional string parameter:
`undefined` and `""` are falsy. -/
def truthy : Option String → Bool
  | none => false
  | some s => s ≠ ""

/-- `extractValue` from relationships.ts: id from any of the three
reference-field shapes ("" when absent). The leading `if (!field)` check
makes null and the empty string return ""; `f.value && ...` and
`f.link && ...` are truthiness-guarded. -/
def extractValue (f : Field) : String :=
  match f with
  | .null => ""
  | .str s => if s = "" then "" else s
  | .obj o =>
    match o.value with
    | some v =>
      if v ≠ "" then v
      else
        match o.link with
        | some l => if l ≠ "" then lastSegment l else ""
        | none => ""
    | none =>
      match o.link with
      | some l => if l ≠ "" then lastSegment l else ""
      | none => ""

/-- The regex `/^[a-f0-9]{32}$/` character class. -/
def isHexChar (c : Char) : Bool :=
  ('a' ≤ c && c ≤ 'f') || ('0' ≤ c && c ≤ '9')

/-- `/^[a-f0-9]{32}$/.test s`. -/
def isHex32 (s : String) : Bool :=
  s.length = 32 && s.toList.all isHexChar

/-- `extractDisplay` from relationships.ts: display text of a reference
field, with the 32-char-hex guard on bare strings. -/
def extractDisplay (f : Field) : String :=
  match f with
  | .null => ""
  | .str s =>
    if s = "" then ""
    else if isHex32 s then "" else s
  | .obj o =>
    match o.display_value with
    | some d => if d ≠ "" then d else ""
    | none => ""

/-- A `cmdb_ci` record as used by root resolution and class lookup
(fields `sys_id,name,sys_class_name`, display values). An absent field is
modelled as `""` (falsy). -/
structure CiRec where
  sys_id : String
  name : String
  sys_class_name : String
deriving DecidableEq, Repr

/-- A `cmdb_rel_ci` row (fields `parent,child,type`,
`sysparm_display_value=all`). -/
structure Row where
  parent : Field
  child : Field
  type : Field
deriving DecidableEq, Repr

/-- The remote instance, as pure response functions:
`ci id` is the record behind `GET /api/now/table/cmdb_ci/{id}` (none =
no record / 404), `classFail id` makes the class lookup for `id` throw,
`byName n` is the response list of the `name=n` query (already filtered
and capped at 5 by the store), `rels id` is the response of
`parent=id^ORchild=id` (already capped at 100 by the store) and
`relsFail id` makes that fetch throw. -/
structure Store where
  ci : String → Option CiRec
  classFail : String → Bool
  byName : String → List CiRec
  rels : String → List Row
  relsFail : String → Bool

/-- One reported relationship (`RelNode` in relationships.ts).
`className` models the source field `class`, a Lean keyword. -/
structure RelNode where
  name : String
  className : String
  type : String
  direction : String
  sys_id : String
  depth : Nat
deriving DecidableEq, Repr

structure RootOut where
  name : String
  className : String
  sys_id : String
deriving DecidableEq, Repr

structure Meta where
  depth : Nat
  direction : String
  total : Nat
deriving DecidableEq, Repr

structure TraversalResult where
  root : RootOut
  relationships : List RelNode
  meta : Meta
deriving DecidableEq, Repr

/-- Handler outcome: `ok(...)` or `err(message)` (utils.ts wraps the
message as `ERROR: ...` text content; we keep the raw message). -/
inductive Out where
  | ok (r : TraversalResult)
  | err (msg : String)
deriving DecidableEq, Repr

def edgesOf : Out → List RelNode
  | .ok r => r.relationships
  | .err _ => []

/-- Parsed tool arguments after the zod schema: `direction` defaults to
"both", `impact` to false. `classFilter` models the source argument
`class`, a Lean keyword. -/
structure Args where
  ci_name : Option String := none
  sys_id : Option String := none
  depth : Option Int := none
  direction : String := "both"
  type : Option String := none
  classFilter : Option String := none
  impact : Bool := false
deriving Repr

structure Config where
  relDepth : Int
deriving Repr

/-- `Math.min(Math.max(d, 1), 5)`. -/
def clampDepth (d : Int) : Int := min (max d 1) 5

/-- Per-call traversal state. `visited`, `classCache`, `allRels` mirror
the source; `trace` (ids whose incident rows were fetched),
`classLookups` (ids for which a remote class lookup was issued) and
`pushLog` (expanding node paired with each pushed edge) are ghost
instrumentation of the remote calls and pushes. -/
structure TravState where
  visited : List String
  classCache : List (String × String)
  allRels : List RelNode
  trace : List String
  classLookups : List String
  pushLog : List (String × RelNode)
deriving Repr

/-- `Map.get` over the assoc-list model of `classCache` (newest first). -/
def cacheGet (c : List (String × String)) (id : String) : Option String :=
  match c with
  | [] => none
  | (k, v) :: rest => if k = id then some v else cacheGet rest id

/-- `getClass` from relationships.ts: memoized id → class lookup; a
thrown or empty lookup is cached as "unknown". -/
def getClass (s : Store) (id : String) (st : TravState) : String × TravState :=
  match cacheGet st.classCache id with
  | some v => (v, st)
  | none =>
    let st := { st with classLookups := st.classLookups ++ [id] }
    if s.classFail id then
      ("unknown", { st with classCache := (id, "unknown") :: st.classCache })
    else
      let cls :=
        match s.ci id with
        | some r => if r.sys_class_name = "" then "unknown" else r.sys_class_name
        | none => "unknown"
      (cls, { st with classCache := (id, cls) :: st.classCache })

/-- `if (args.type && !typeName.toLowerCase().includes(args.type.toLowerCase()))`. -/
def typeSkip (tf : Option String) (typeName : String) : Bool :=
  match tf with
  | some t => t ≠ "" && !(jsIncludes (jsToLower typeName) (jsToLower t))
  | none => false

/-- `!args.class || otherClass.toLowerCase().includes(args.class.toLowerCase())`. -/
def classPass (cf : Option String) (cls : String) : Bool :=
  match cf with
  | some f => f = "" || jsIncludes (jsToLower cls) (jsToLower f)
  | none => true

/-- Traversal context: everything `traverse` closes over. -/
structure Ctx where
  store : Store
  maxDepth : Nat
  direction : String
  typeFilter : Option String
  classFilter : Option String

/-- `allRels.push(rel)`, with the ghost push log keyed by the expanding
node `x`. -/
def push (st : TravState) (x : String) (rel : RelNode) : TravState :=
  { st with allRels := st.allRels ++ [rel], pushLog := st.pushLog ++ [(x, rel)] }

/-- The stateless head of one `for (const rec of records)` iteration of
`traverse`: endpoint resolution, role determination (`continue` when
`currentId` is neither endpoint), self-loop guard, direction filter and
type filter. Returns `(otherId, otherName, relDir, typeName)` when the
row survives to the dedup step, `none` when the iteration `continue`s
before it. -/
def rowCandidate (c : Ctx) (currentId : String) (r : Row) :
    Option (String × String × String × String) :=
  let parentId := extractValue r.parent
  let childId := extractValue r.child
  let typeName :=
    if extractDisplay r.type = "" then "Related to" else extractDisplay r.type
  let role : Option (String × String × String) :=
    if parentId = currentId then some (childId, extractDisplay r.child, "downstream")
    else if childId = currentId then some (parentId, extractDisplay r.parent, "upstream")
    else none
  match role with
  | none => none
  | some (otherId, otherName, relDir) =>
    if otherId = currentId then none
    else if c.direction ≠ "both" ∧ relDir ≠ c.direction then none
    else if typeSkip c.typeFilter typeName then none
    else some (otherId, otherName, relDir, typeName)

/-- The object pushed onto `allRels` for one reported relationship:
`name` falls back to the sys_id when the display name is empty
(`otherName || otherId`). -/
def mkRel (otherId otherName otherClass typeName relDir : String)
    (depth : Nat) : RelNode :=
  { name := if otherName = "" then otherId else otherName,
    className := otherClass, type := typeName,
    direction := relDir, sys_id := otherId, depth := depth }

/-- The stateful tail of one iteration, after the `(otherId, relDir)`
pair was found fresh: class lookup (possibly caching), display-only
class filter deciding the push, and the guarded recursion
(`expand otherId` stands for `traverse(otherId, currentDepth + 1)`). -/
def hitState (c : Ctx) (expand : String → TravState → TravState)
    (currentId : String) (currentDepth : Nat)
    (otherId otherName relDir typeName : String) (st : TravState) : TravState :=
  let res := getClass c.store otherId st
  let otherClass := res.1
  let st₁ := res.2
  let st₂ :=
    if classPass c.classFilter otherClass then
      push st₁ currentId (mkRel otherId otherName otherClass typeName relDir currentDepth)
    else st₁
  if currentDepth < c.maxDepth ∧ otherId ∉ st₂.visited then
    expand otherId { st₂ with visited := otherId :: st₂.visited }
  else st₂

/-- The `for (const rec of records)` loop of `traverse`: for each row,
either `continue` (no candidate / duplicate `(otherId, relDir)` pair in
`seen`), or process the hit and go on with the pair recorded. -/
def loop (c : Ctx) (expand : String → TravState → TravState)
    (currentId : String) (currentDepth : Nat) :
    List Row → List String → TravState → TravState
  | [], _, st => st
  | r :: rest, seen, st =>
    match rowCandidate c currentId r with
    | none => loop c expand currentId currentDepth rest seen st
    | some (otherId, otherName, relDir, typeName) =>
      let pairKey := otherId ++ ":" ++ relDir
      if pairKey ∈ seen then loop c expand currentId currentDepth rest seen st
      else
        loop c expand currentId currentDepth rest (pairKey :: seen)
          (hitState c expand currentId currentDepth otherId otherName relDir typeName st)

/-- `traverse(currentId, currentDepth)` from relationships.ts: depth
guard, one incident-rows fetch (ghost-recorded in `trace`; a thrown
fetch aborts just this node), then the row loop with `traverse` itself
as the expansion function. -/
def go (c : Ctx) (currentId : String) (currentDepth : Nat) (st : TravState) :
    TravState :=
  if h : currentDepth > c.maxDepth then st
  else
    let st' := { st with trace := st.trace ++ [currentId] }
    if c.store.relsFail currentId then st'
    else
      loop c (fun i s => go c i (currentDepth + 1) s) currentId currentDepth
        (c.store.rels currentId) [] st'
termination_by c.maxDepth + 2 - currentDepth
decreasing_by omega

/-- Fuel-indexed twin of `go`, definitionally reducible (used to
evaluate the traversal on concrete stores; `go_eq_goE` shows it agrees
with `go` whenever the fuel covers the remaining depth budget). -/
def goE (c : Ctx) : Nat → String → Nat → TravState → TravState
  | 0, _, _, st => st
  | fuel + 1, currentId, currentDepth, st =>
    if currentDepth > c.maxDepth then st
    else
      let st' := { st with trace := st.trace ++ [currentId] }
      if c.store.relsFail currentId then st'
      else
        loop c (fun i s => goE c fuel i (currentDepth + 1) s) currentId currentDepth
          (c.store.rels currentId) [] st'

/-- Initial per-call state: `visited` seeded with the root,
`classCache` seeded with the root's class. -/
def initState (rootId rootClass : String) : TravState :=
  { visited := [rootId], classCache := [(rootId, rootClass)], allRels := [],
    trace := [], classLookups := [], pushLog := [] }

/-- `await traverse(rootId, 1)` on the fresh state. -/
def finalState (c : Ctx) (rootId rootClass : String) : TravState :=
  go c rootId 1 (initState rootId rootClass)

/-- Root resolution (lines 85–110): by `sys_id` when that argument is
truthy, else by `ci_name` (first of at most 5 exact-name matches). -/
def rootResolve (s : Store) (args : Args) :
    Except String (String × String × String) :=
  if truthy args.sys_id then
    let sid := args.sys_id.getD ""
    match s.ci sid with
    | some r =>
      if r.name = "" then .error ("CI not found with sys_id: " ++ sid)
      else .ok (sid, r.name, r.sys_class_name)
    | none => .error ("CI not found with sys_id: " ++ sid)
  else
    let nm := args.ci_name.getD ""
    match s.byName nm with
    | [] => .error ("CI not found: " ++ nm)
    | r :: _ => .ok (r.sys_id, r.name, r.sys_class_name)

/-- The tool handler: argument validation, depth clamping, impact
override, root resolution, traversal, result assembly. -/
def handler (s : Store) (cfg : Config) (args : Args) : Out :=
  if truthy args.ci_name = false ∧ truthy args.sys_id = false then
    .err "Either ci_name or sys_id is required"
  else
    let maxDepth : Nat := (clampDepth (args.depth.getD cfg.relDepth)).toNat
    let direction := if args.impact then "upstream" else args.direction
    match rootResolve s args with
    | .error m => .err m
    | .ok (rootId, rootName, rootClass) =>
      let c : Ctx :=
        { store := s, maxDepth := maxDepth, direction := direction,
          typeFilter := args.type, classFilter := args.classFilter }
      let st := finalState c rootId rootClass
      .ok { root := { name := rootName, className := rootClass, sys_id := rootId },
            relationships := st.allRels,
            meta := { depth := maxDepth, direction := direction,
                      total := st.allRels.length } }

/-- Executable twin of `handler`, running `goE` with fuel
`maxDepth + 1` (enough for a traversal starting at depth 1). -/
def handlerE (s : Store) (cfg : Config) (args : Args) : Out :=
  if truthy args.ci_name = false ∧ truthy args.sys_id = false then
    .err "Either ci_name or sys_id is required"
  else
    let maxDepth : Nat := (clampDepth (args.depth.getD cfg.relDepth)).toNat
    let direction := if args.impact then "upstream" else args.direction
    match rootResolve s args with
    | .error m => .err m
    | .ok (rootId, rootName, rootClass) =>
      let c : Ctx :=
        { store := s, maxDepth := maxDepth, direction := direction,
          typeFilter := args.type, classFilter := args.classFilter }
      let st := goE c (maxDepth + 1) rootId 1 (initState rootId rootClass)
      .ok { root := { name := rootName, className := rootClass, sys_id := rootId },
            relationships := st.allRels,
            meta := { depth := maxDepth, direction := direction,
                      total := st.allRels.length } }

/-- Equality of the control-flow-relevant state components: everything
except the result list and push log. -/
def CoreEq (a b : TravState) : Prop :=
  a.visited = b.visited ∧ a.classCache = b.classCache ∧
  a.trace = b.trace ∧ a.classLookups = b.classLookups

/-- Filtered-vs-unfiltered run relation: same control state, and the
filtered run's edges are the `classPass`-filter of the unfiltered
run's. -/
def FiltEq (p : RelNode → Bool) (a b : TravState) : Prop :=
  CoreEq a b ∧ a.allRels = b.allRels.filter p

/-- The dedup keys (`otherId + ":" + relDir`) of the edges pushed while
expanding node `x`, in push order. -/
def xKeys (x : String) (l : List (String × RelNode)) : List String :=
  (l.filter (fun pr => pr.1 == x)).map (fun pr => pr.2.sys_id ++ ":" ++ pr.2.direction)

/-- Single-run well-formedness invariant of the traversal state:
expansion happens at most once per node (`trace` has no duplicates and
only visited nodes), the result list is the push log's edges, a pushed
edge is attributed to an expanded node, an edge's name falls back to its
sys_id (never empty name with nonempty id), per-expanding-node dedup
keys are distinct, and each remote class lookup happened at most once
and left a cache entry. -/
def Inv (st : TravState) : Prop :=
  st.trace.Nodup ∧
  (∀ y ∈ st.trace, y ∈ st.visited) ∧
  st.allRels = st.pushLog.map Prod.snd ∧
  (∀ pr ∈ st.pushLog, pr.1 ∈ st.trace) ∧
  (∀ pr ∈ st.pushLog, pr.2.name = "" → pr.2.sys_id = "") ∧
  (∀ x, (xKeys x st.pushLog).Nodup) ∧
  st.classLookups.Nodup ∧
  (∀ id ∈ st.classLookups, cacheGet st.classCache id ≠ none)

/-- Specification assumed of the `expand` callback (and satisfied by
`goE`, see `goE_inv`): on a visited-but-not-yet-expanded node it
preserves `Inv`, only grows `visited` and `trace`, and appends pushes
attributed to nodes expanded during the call. -/
def ExpandSpec (e : String → TravState → TravState) : Prop :=
  ∀ i st, i ∈ st.visited → i ∉ st.trace → Inv st →
    Inv (e i st) ∧
    (∀ y ∈ st.visited, y ∈ (e i st).visited) ∧
    (∀ y ∈ st.trace, y ∈ (e i st).trace) ∧
    ∃ Δ, (e i st).pushLog = st.pushLog ++ Δ ∧ ∀ pr ∈ Δ, pr.1 ∉ st.trace

/-- A one-CI store: `X1` exists with name `Root`, no relationships. -/
def s1 : Store :=
  { ci := fun id => if id = "X1" then some ⟨"X1", "Root", "Cls"⟩ else none,
    classFail := fun _ => false,
    byName := fun n => if n = "Root" then [⟨"X1", "Root", "Cls"⟩] else [],
    rels := fun _ => [],
    relsFail := fun _ => false }

/-- The R → B(Switch) → C(Server) chain of the class-filter example. -/
def chainStore : Store :=
  { ci := fun id =>
      if id = "R" then some ⟨"R", "R", "Router"⟩
      else if id = "B" then some ⟨"B", "B", "Switch"⟩
      else if id = "C" then some ⟨"C", "C", "Server"⟩
      else none,
    classFail := fun _ => false,
    byName := fun _ => [],
    rels := fun id =>
      if id = "R" then [⟨.str "R", .str "B", .null⟩]
      else if id = "B" then [⟨.str "R", .str "B", .null⟩, ⟨.str "B", .str "C", .null⟩]
      else if id = "C" then [⟨.str "B", .str "C", .null⟩]
      else [],
    relsFail := fun _ => false }

/-- A 3-node relationship cycle A → B → C → A. -/
def cycStore : Store :=
  { ci := fun id =>
      if id = "A" then some ⟨"A", "A", "ClassA"⟩
      else if id = "B" then some ⟨"B", "B", "ClassB"⟩
      else if id = "C" then some ⟨"C", "C", "ClassC"⟩
      else none,
    classFail := fun _ => false,
    byName := fun _ => [],
    rels := fun id =>
      if id = "A" then [⟨.str "A", .str "B", .null⟩, ⟨.str "C", .str "A", .null⟩]
      else if id = "B" then [⟨.str "A", .str "B", .null⟩, ⟨.str "B", .str "C", .null⟩]
      else if id = "C" then [⟨.str "B", .str "C", .null⟩, ⟨.str "C", .str "A", .null⟩]
      else [],
    relsFail := fun _ => false }

/-- R → A downstream, plus an upstream parent B of A: the direction
filter also prunes the search frontier, so the upstream/downstream runs
never discover B while the both-run does. -/
def dirStore : Store :=
  { ci := fun id =>
      if id = "R" then some ⟨"R", "R", "CR"⟩
      else if id = "A" then some ⟨"A", "A", "CA"⟩
      else if id = "B" then some ⟨"B", "B", "CB"⟩
      else none,
    classFail := fun _ => false,
    byName := fun _ => [],
    rels := fun id =>
      if id = "R" then [⟨.str "R", .str "A", .null⟩]
      else if id = "A" then [⟨.str "R", .str "A", .null⟩, ⟨.str "B", .str "A", .null⟩]
      else if id = "B" then [⟨.str "B", .str "A", .null⟩]
      else [],
    relsFail := fun _ => false }


/-- Two parallel relationship rows of different types between R and A
(first type text must win, and only one edge be reported). -/
def parStore : Store :=
  { ci := fun id =>
      if id = "R" then some ⟨"R", "R", "CR"⟩
      else if id = "A" then some ⟨"A", "A", "CA"⟩
      else none,
    classFail := fun _ => false,
    byName := fun _ => [],
    rels := fun id =>
      if id = "R" then
        [⟨.str "R", .str "A", .obj ⟨none, some "Runs on", none⟩⟩,
         ⟨.str "R", .str "A", .obj ⟨none, some "Depends on", none⟩⟩]
      else if id = "A" then
        [⟨.str "R", .str "A", .obj ⟨none, some "Runs on", none⟩⟩,
         ⟨.str "R", .str "A", .obj ⟨none, some "Depends on", none⟩⟩]
      else [],
    relsFail := fun _ => false }

/-- Diamond R → X → Z and R → Y → Z: the pair (Z, downstream) is
reported once per expanding node (X and Y), i.e. twice in total. -/
def rstStore : Store :=
  { ci := fun id =>
      if id = "R" then some ⟨"R", "R", "CR"⟩
      else if id = "X" then some ⟨"X", "X", "CX"⟩
      else if id = "Y" then some ⟨"Y", "Y", "CY"⟩
      else if id = "Z" then some ⟨"Z", "Z", "CZ"⟩
      else none,
    classFail := fun _ => false,
    byName := fun _ => [],
    rels := fun id =>
      if id = "R" then [⟨.str "R", .str "X", .null⟩, ⟨.str "R", .str "Y", .null⟩]
      else if id = "X" then [⟨.str "R", .str "X", .null⟩, ⟨.str "X", .str "Z", .null⟩]
      else if id = "Y" then [⟨.str "R", .str "Y", .null⟩, ⟨.str "Y", .str "Z", .null⟩]
      else if id = "Z" then [⟨.str "X", .str "Z", .null⟩, ⟨.str "Y", .str "Z", .null⟩]
      else [],
    relsFail := fun _ => false }

/-- R's single child endpoint is a bare 32-char hex sys_id: the display
name resolves empty and the edge name must fall back to the sys_id. -/
def hexStore : Store :=
  { ci := fun id => if id = "R" then some ⟨"R", "R", "CR"⟩ else none,
    classFail := fun _ => false,
    byName := fun _ => [],
    rels := fun id =>
      if id = "R" then
        [⟨.str "R", .str "aaaaaaaaaaaaaaaaaaaaaaaaaaaaaaaa", .null⟩]
      else [],
    relsFail := fun _ => false }

/-- R's single child endpoint is the empty string: both the resolved id
and name are empty. -/
def emptyFieldStore : Store :=
  { ci := fun id => if id = "R" then some ⟨"R", "R", "CR"⟩ else none,
    classFail := fun _ => false,
    byName := fun _ => [],
    rels := fun id => if id = "R" then [⟨.str "R", .str "", .null⟩] else [],
    relsFail := fun _ => false }

/-- The remote store with node `id0`'s failing incident-rows fetch
replaced by a successful empty response. -/
def absorbFailedFetch (s : Store) (id0 : String) : Store :=
  { s with rels := fun i => if i = id0 then [] else s.rels i,
           relsFail := fun i => if i = id0 then false else s.relsFail i }

/-- R with children A and B where B's incident-rows fetch throws. -/
def failStore : Store :=
  { ci := fun id =>
      if id = "R" then some ⟨"R", "R", "CR"⟩
      else if id = "A" then some ⟨"A", "A", "CA"⟩
      else if id = "B" then some ⟨"B", "B", "CB"⟩
      else none,
    classFail := fun _ => false,
    byName := fun _ => [],
    rels := fun id =>
      if id = "R" then [⟨.str "R", .str "A", .null⟩, ⟨.str "R", .str "B", .null⟩]
      else if id = "A" then [⟨.str "R", .str "A", .null⟩]
      else if id = "B" then [⟨.str "R", .str "B", .null⟩]
      else [],
    relsFail := fun id => id == "B" }

/-- The class a remote class lookup yields for `id`, ignoring the cache
("unknown" on a thrown, missing or empty lookup). -/
def classValue (s : Store) (id : String) : String :=
  if s.classFail id then "unknown"
  else
    match s.ci id with
    | some r => if r.sys_class_name = "" then "unknown" else r.sys_class_name
    | none => "unknown"

/-- The class cache holds the seeded root class and otherwise only
canonical lookup results. -/
def CacheOK (s : Store) (seedId seedCls : String)
    (cc : List (String × String)) : Prop :=
  cacheGet cc seedId = some seedCls ∧
  ∀ id v, cacheGet cc id = some v →
    v = (if id = seedId then seedCls else classValue s id)

theorem hitState_congr (c : Ctx) (e₁ e₂ : String → TravState → TravState)
    (x : String) (d : Nat) (oi onm rd tn : String) (st : TravState)
    (h : ∀ i s, e₁ i s = e₂ i s) :
    hitState c e₁ x d oi onm rd tn st = hitState c e₂ x d oi onm rd tn st := by
  simp only [hitState]
  split <;> simp [h]

theorem loop_congr (c : Ctx) (e₁ e₂ : String → TravState → TravState)
    (x : String) (d : Nat) (h : ∀ i s, e₁ i s = e₂ i s) :
    ∀ records seen st,
      loop c e₁ x d records seen st = loop c e₂ x d records seen st := by
  intro records
  induction records with
  | nil => intro seen st; rfl
  | cons r rest ih =>
    intro seen st
    simp only [loop]
    split
    · exact ih _ _
    · split
      · exact ih _ _
      · rw [hitState_congr c e₁ e₂ x d _ _ _ _ st h]
        exact ih _ _

theorem go_eq_goE (c : Ctx) :
    ∀ (fuel currentDepth : Nat), c.maxDepth + 2 - currentDepth ≤ fuel →
      ∀ currentId st, go c currentId currentDepth st = goE c fuel currentId currentDepth st := by
  intro fuel
  induction fuel with
  | zero =>
    intro d hd id st
    rw [go, goE]
    simp only [dif_pos (by omega : d > c.maxDepth)]
  | succ fuel ih =>
    intro d hd id st
    rw [go, goE]
    by_cases hgt : d > c.maxDepth
    · simp only [dif_pos hgt, if_pos hgt]
    · simp only [dif_neg hgt, if_neg hgt]
      split
      · rfl
      · exact loop_congr c _ _ id d (fun i s => ih (d + 1) (by omega) i s) _ _ _

theorem finalState_eq (c : Ctx) (rootId rootClass : String) :
    finalState c rootId rootClass =
      goE c (c.maxDepth + 1) rootId 1 (initState rootId rootClass) :=
  go_eq_goE c (c.maxDepth + 1) 1 (by omega) rootId (initState rootId rootClass)

theorem handler_eval (s : Store) (cfg : Config) (args : Args) :
    handler s cfg args = handlerE s cfg args := by
  simp only [handler, handlerE, finalState_eq]

theorem clampDepth_idem (d : Int) : clampDepth (clampDepth d) = clampDepth d := by
  simp only [clampDepth]
  rcases le_total d 1 with h | h <;> rcases le_total d 5 with h' | h' <;>
    simp [max_def, min_def] <;> omega

/-- Whenever the handler succeeds, its `meta` echoes the clamped depth
and the effective (impact-overridden) direction. -/
theorem handler_ok_meta (s : Store) (cfg : Config) (args : Args)
    (r : TraversalResult) (h : handler s cfg args = Out.ok r) :
    r.meta.depth = (clampDepth (args.depth.getD cfg.relDepth)).toNat ∧
    r.meta.direction = (if args.impact then "upstream" else args.direction) := by
  unfold handler at h
  repeat' split at h
  all_goals simp at h
  all_goals (subst h; refine ⟨rfl, ?_⟩; simp_all)

theorem rootResolve_depth (s : Store) (args : Args) (x : Option Int) :
    rootResolve s { args with depth := x } = rootResolve s args := rfl

/-- The handler's output depends on `args.depth` only through
`clampDepth`. -/
theorem handler_depth_invariant (s : Store) (cfg : Config) (args : Args)
    (d : Int) :
    handler s cfg { args with depth := some d } =
      handler s cfg { args with depth := some (clampDepth d) } := by
  simp only [handler, Option.getD_some, clampDepth_idem, rootResolve_depth]

/- ### Concrete stores used by examples, witnesses and counterexamples -/

theorem mkRel_name (oi onm cls tn rd : String) (d : Nat) :
    (mkRel oi onm cls tn rd d).name = if onm = "" then oi else onm := rfl
theorem mkRel_className (oi onm cls tn rd : String) (d : Nat) :
    (mkRel oi onm cls tn rd d).className = cls := rfl
theorem mkRel_sys_id (oi onm cls tn rd : String) (d : Nat) :
    (mkRel oi onm cls tn rd d).sys_id = oi := rfl
theorem mkRel_direction (oi onm cls tn rd : String) (d : Nat) :
    (mkRel oi onm cls tn rd d).direction = rd := rfl

theorem push_visited (s : TravState) (x : String) (r : RelNode) :
    (push s x r).visited = s.visited := rfl
theorem push_classCache (s : TravState) (x : String) (r : RelNode) :
    (push s x r).classCache = s.classCache := rfl
theorem push_trace (s : TravState) (x : String) (r : RelNode) :
    (push s x r).trace = s.trace := rfl
theorem push_classLookups (s : TravState) (x : String) (r : RelNode) :
    (push s x r).classLookups = s.classLookups := rfl
theorem push_allRels (s : TravState) (x : String) (r : RelNode) :
    (push s x r).allRels = s.allRels ++ [r] := rfl

theorem classPass_none (cls : String) : classPass none cls = true := rfl

theorem getClass_visited (s : Store) (id : String) (st : TravState) :
    (getClass s id st).2.visited = st.visited := by
  unfold getClass
  repeat' split
  all_goals rfl

theorem getClass_allRels (s : Store) (id : String) (st : TravState) :
    (getClass s id st).2.allRels = st.allRels := by
  unfold getClass
  repeat' split
  all_goals rfl

theorem getClass_pair (s : Store) (id : String) (st₁ st₂ : TravState)
    (h : CoreEq st₁ st₂) :
    (getClass s id st₁).1 = (getClass s id st₂).1 ∧
    CoreEq (getClass s id st₁).2 (getClass s id st₂).2 := by
  obtain ⟨hv, hc, ht, hl⟩ := h
  unfold getClass
  rw [hc]
  split
  · exact ⟨rfl, ⟨hv, hc, ht, hl⟩⟩
  · split <;> exact ⟨rfl, ⟨hv, by simp [hc], ht, by simp [hl]⟩⟩

theorem hitState_classFilter (c : Ctx) (cf : Option String)
    (e₁ e₂ : String → TravState → TravState)
    (he : ∀ i s₁ s₂, FiltEq (fun r => classPass cf r.className) s₁ s₂ →
      FiltEq (fun r => classPass cf r.className) (e₁ i s₁) (e₂ i s₂))
    (x : String) (d : Nat) (oi onm rd tn : String) (st₁ st₂ : TravState)
    (h : FiltEq (fun r => classPass cf r.className) st₁ st₂) :
    FiltEq (fun r => classPass cf r.className)
      (hitState { c with classFilter := cf } e₁ x d oi onm rd tn st₁)
      (hitState { c with classFilter := none } e₂ x d oi onm rd tn st₂) := by
  obtain ⟨hcore, hf⟩ := h
  obtain ⟨hv, hc, ht, hl⟩ := hcore
  obtain ⟨hcls, ⟨hv', hc', ht', hl'⟩⟩ := getClass_pair c.store oi st₁ st₂ ⟨hv, hc, ht, hl⟩
  simp only [hitState, classPass_none, if_true]
  rw [hcls]
  simp only [apply_ite TravState.visited, push_visited, ite_self, getClass_visited]
  rw [hv]
  split
  · refine he _ _ _ ⟨⟨rfl, ?_, ?_, ?_⟩, ?_⟩
    · simp [apply_ite TravState.classCache, push_classCache, ite_self, hc']
    · simp [apply_ite TravState.trace, push_trace, ite_self, ht']
    · simp [apply_ite TravState.classLookups, push_classLookups, ite_self, hl']
    · by_cases hp : classPass cf (getClass c.store oi st₂).1 = true <;>
        simp [hp, apply_ite TravState.allRels, push_allRels, getClass_allRels, hf,
          List.filter_append, mkRel_className]
  · refine ⟨⟨?_, ?_, ?_, ?_⟩, ?_⟩
    · simp [apply_ite TravState.visited, push_visited, ite_self, getClass_visited, hv]
    · simp [apply_ite TravState.classCache, push_classCache, ite_self, hc']
    · simp [apply_ite TravState.trace, push_trace, ite_self, ht']
    · simp [apply_ite TravState.classLookups, push_classLookups, ite_self, hl']
    · by_cases hp : classPass cf (getClass c.store oi st₂).1 = true <;>
        simp [hp, apply_ite TravState.allRels, push_allRels, getClass_allRels, hf,
          List.filter_append, mkRel_className]

theorem rowCandidate_classFilter (c : Ctx) (x' : Option String) (id : String) (r : Row) :
    rowCandidate { c with classFilter := x' } id r = rowCandidate c id r := rfl

theorem loop_classFilter (c : Ctx) (cf : Option String)
    (e₁ e₂ : String → TravState → TravState)
    (he : ∀ i s₁ s₂, FiltEq (fun r => classPass cf r.className) s₁ s₂ →
      FiltEq (fun r => classPass cf r.className) (e₁ i s₁) (e₂ i s₂)) :
    ∀ (records : List Row) (x : String) (d : Nat) (seen : List String)
      (st₁ st₂ : TravState), FiltEq (fun r => classPass cf r.className) st₁ st₂ →
      FiltEq (fun r => classPass cf r.className)
        (loop { c with classFilter := cf } e₁ x d records seen st₁)
        (loop { c with classFilter := none } e₂ x d records seen st₂) := by
  intro records
  induction records with
  | nil => intro x d seen st₁ st₂ h; exact h
  | cons r rest ih =>
    intro x d seen st₁ st₂ h
    simp only [loop, rowCandidate_classFilter]
    split
    · exact ih x d seen st₁ st₂ h
    · split
      · exact ih x d seen st₁ st₂ h
      · exact ih x d _ _ _ (hitState_classFilter c cf e₁ e₂ he x d _ _ _ _ st₁ st₂ h)

theorem goE_classFilter (c : Ctx) (cf : Option String) :
    ∀ (fuel : Nat) (i : String) (d : Nat) (s₁ s₂ : TravState),
      FiltEq (fun r => classPass cf r.className) s₁ s₂ →
      FiltEq (fun r => classPass cf r.className)
        (goE { c with classFilter := cf } fuel i d s₁)
        (goE { c with classFilter := none } fuel i d s₂) := by
  intro fuel
  induction fuel with
  | zero => intro i d s₁ s₂ h; exact h
  | succ fuel ih =>
    intro i d s₁ s₂ h
    obtain ⟨⟨hv, hc, ht, hl⟩, hf⟩ := h
    simp only [goE]
    split
    · exact ⟨⟨hv, hc, ht, hl⟩, hf⟩
    · split
      · exact ⟨⟨hv, hc, by rw [ht], hl⟩, hf⟩
      · exact loop_classFilter c cf _ _ (fun i' s₁' s₂' hh => ih i' (d + 1) s₁' s₂' hh)
          _ i d [] _ _ ⟨⟨hv, hc, by rw [ht], hl⟩, hf⟩


/- ### C2 — class filtering is display-only -/

/-- C2: for every traversal, the run with a class filter walks exactly
the same frontier (same expansion trace and visited set) as the run
without one, and its edge list is exactly the unfiltered run's edge
list restricted to the edges whose class passes the filter; on the
chain R → B(Switch) → C(Server) with maxDepth 2 and classFilter
"Server", the result contains the edge to C and not the edge to B,
with B nevertheless expanded. -/
theorem c2_class_filter_display_only :
    (∀ (c : Ctx) (cf : Option String) (rootId rootClass : String),
      (finalState { c with classFilter := cf } rootId rootClass).trace =
        (finalState { c with classFilter := none } rootId rootClass).trace ∧
      (finalState { c with classFilter := cf } rootId rootClass).visited =
        (finalState { c with classFilter := none } rootId rootClass).visited ∧
      (finalState { c with classFilter := cf } rootId rootClass).allRels =
        ((finalState { c with classFilter := none } rootId rootClass).allRels).filter
          (fun r => classPass cf r.className)) ∧
    edgesOf (handler chainStore ⟨3⟩
        { sys_id := some "R", depth := some 2, classFilter := some "Server" }) =
      [{ name := "C", className := "Server", type := "Related to",
         direction := "downstream", sys_id := "C", depth := 2 }] ∧
    (finalState { store := chainStore, maxDepth := 2, direction := "both",
                  typeFilter := none, classFilter := some "Server" }
        "R" "Router").trace =
      ["R", "B"] := by
  refine ⟨?_, ?_, ?_⟩
  · intro c cf rootId rootClass
    have h := goE_classFilter c cf (c.maxDepth + 1) rootId 1
      (initState rootId rootClass) (initState rootId rootClass)
      ⟨⟨rfl, rfl, rfl, rfl⟩, rfl⟩
    rw [finalState_eq, finalState_eq]
    exact ⟨h.1.2.2.1, h.1.1, h.2⟩
  · rw [handler_eval]; decide
  · rw [finalState_eq]; decide

theorem cacheGet_cons_ne (c : List (String × String)) (kv : String × String)
    (i : String) (h : cacheGet c i ≠ none) : cacheGet (kv :: c) i ≠ none := by
  obtain ⟨k, v⟩ := kv
  simp only [cacheGet]
  split <;> simp_all

theorem getClass_trace (s : Store) (id : String) (st : TravState) :
    (getClass s id st).2.trace = st.trace := by
  unfold getClass
  repeat' split
  all_goals rfl

theorem getClass_pushLog (s : Store) (id : String) (st : TravState) :
    (getClass s id st).2.pushLog = st.pushLog := by
  unfold getClass
  repeat' split
  all_goals rfl

theorem getClass_inv (s : Store) (id : String) (st : TravState) (h : Inv st) :
    Inv (getClass s id st).2 := by
  obtain ⟨h1, h2, h3, h4, h5, h6, h7, h8⟩ := h
  unfold getClass
  split
  · exact ⟨h1, h2, h3, h4, h5, h6, h7, h8⟩
  · rename_i hmiss
    have hnotin : id ∉ st.classLookups := fun hin => (h8 id hin) hmiss
    split
    · refine ⟨h1, h2, h3, h4, h5, h6, ?_, ?_⟩
      · exact List.Nodup.append h7 (List.nodup_singleton id)
          (by simpa [List.disjoint_singleton] using hnotin)
      · intro i hi
        simp only [List.mem_append, List.mem_singleton] at hi
        rcases hi with hi | hi
        · exact cacheGet_cons_ne _ _ _ (h8 i hi)
        · subst hi; simp [cacheGet]
    · refine ⟨h1, h2, h3, h4, h5, h6, ?_, ?_⟩
      · exact List.Nodup.append h7 (List.nodup_singleton id)
          (by simpa [List.disjoint_singleton] using hnotin)
      · intro i hi
        simp only [List.mem_append, List.mem_singleton] at hi
        rcases hi with hi | hi
        · exact cacheGet_cons_ne _ _ _ (h8 i hi)
        · subst hi; simp [cacheGet]

theorem xKeys_append (x : String) (a b : List (String × RelNode)) :
    xKeys x (a ++ b) = xKeys x a ++ xKeys x b := by
  simp [xKeys, List.filter_append]

theorem xKeys_nil (x : String) (l : List (String × RelNode))
    (h : ∀ pr ∈ l, pr.1 ≠ x) : xKeys x l = [] := by
  have hf : l.filter (fun pr => pr.1 == x) = [] :=
    List.filter_eq_nil_iff.mpr (fun pr hpr => by simpa using h pr hpr)
  simp [xKeys, hf]

theorem xKeys_single_self (x : String) (r : RelNode) :
    xKeys x [(x, r)] = [r.sys_id ++ ":" ++ r.direction] := by
  simp [xKeys]

theorem push_pushLog (s : TravState) (x : String) (r : RelNode) :
    (push s x r).pushLog = s.pushLog ++ [(x, r)] := rfl

theorem push_inv (st : TravState) (x : String) (r : RelNode)
    (hinv : Inv st) (hx : x ∈ st.trace) (hname : r.name = "" → r.sys_id = "")
    (hkey : (r.sys_id ++ ":" ++ r.direction) ∉ xKeys x st.pushLog) :
    Inv (push st x r) := by
  obtain ⟨h1, h2, h3, h4, h5, h6, h7, h8⟩ := hinv
  refine ⟨h1, h2, ?_, ?_, ?_, ?_, h7, h8⟩
  · simp [push, h3]
  · intro pr hpr
    simp only [push, List.mem_append, List.mem_singleton] at hpr
    rcases hpr with hpr | hpr
    · exact h4 pr hpr
    · subst hpr; exact hx
  · intro pr hpr
    simp only [push, List.mem_append, List.mem_singleton] at hpr
    rcases hpr with hpr | hpr
    · exact h5 pr hpr
    · subst hpr; exact hname
  · intro x'
    show (xKeys x' (st.pushLog ++ [(x, r)])).Nodup
    rw [xKeys_append]
    by_cases hx' : x' = x
    · subst hx'
      rw [xKeys_single_self]
      exact List.Nodup.append (h6 _) (List.nodup_singleton _)
        (by simpa [List.disjoint_singleton] using hkey)
    · rw [xKeys_nil x' [(x, r)] (by simpa using fun h => (hx' h.symm).elim)]
      simpa using h6 x'

theorem hitState_inv (c : Ctx) (e : String → TravState → TravState)
    (he : ExpandSpec e) (x : String) (d : Nat) (oi onm rd tn : String)
    (st : TravState) (hxt : x ∈ st.trace) (hinv : Inv st)
    (hfresh : (oi ++ ":" ++ rd) ∉ xKeys x st.pushLog) :
    Inv (hitState c e x d oi onm rd tn st) ∧
    (∀ y ∈ st.visited, y ∈ (hitState c e x d oi onm rd tn st).visited) ∧
    (∀ y ∈ st.trace, y ∈ (hitState c e x d oi onm rd tn st).trace) ∧
    ∃ Δ, (hitState c e x d oi onm rd tn st).pushLog = st.pushLog ++ Δ ∧
      (∀ k ∈ xKeys x Δ, k = oi ++ ":" ++ rd) ∧
      (∀ pr ∈ Δ, pr.1 = x ∨ pr.1 ∉ st.trace) := by
  have hinv₁ : Inv (getClass c.store oi st).2 := getClass_inv _ _ _ hinv
  have hxt₁ : x ∈ (getClass c.store oi st).2.trace := by
    rw [getClass_trace]; exact hxt
  have hkey₁ : (oi ++ ":" ++ rd) ∉ xKeys x (getClass c.store oi st).2.pushLog := by
    rw [getClass_pushLog]; exact hfresh
  have hname : ∀ cls, (mkRel oi onm cls tn rd d).name = "" →
      (mkRel oi onm cls tn rd d).sys_id = "" := by
    intro cls hn
    rw [mkRel_name] at hn
    rw [mkRel_sys_id]
    by_cases ho : onm = ""
    · rwa [if_pos ho] at hn
    · rw [if_neg ho] at hn; exact absurd hn ho
  simp only [hitState]
  by_cases hp : classPass c.classFilter (getClass c.store oi st).1 = true
  · rw [if_pos hp]
    have hinv₂ : Inv (push (getClass c.store oi st).2 x
        (mkRel oi onm (getClass c.store oi st).1 tn rd d)) :=
      push_inv _ _ _ hinv₁ hxt₁ (hname _) hkey₁
    split
    · rename_i hg
      have hoivis : oi ∉ st.visited := by
        have h2 := hg.2
        rwa [push_visited, getClass_visited] at h2
      have hoitr : oi ∉ st.trace := fun hcon => hoivis (hinv.2.1 oi hcon)
      obtain ⟨i1, i2, i3, i4, i5, i6, i7, i8⟩ := hinv₂
      obtain ⟨hie, hve, hte, Δe, hpe, hae⟩ :=
        he oi
          { push (getClass c.store oi st).2 x
              (mkRel oi onm (getClass c.store oi st).1 tn rd d) with
            visited := oi :: (push (getClass c.store oi st).2 x
              (mkRel oi onm (getClass c.store oi st).1 tn rd d)).visited }
          (List.mem_cons_self _ _)
          (show oi ∉ (getClass c.store oi st).2.trace by
            rw [getClass_trace]; exact hoitr)
          ⟨i1, fun y hy => List.mem_cons_of_mem _ (i2 y hy), i3, i4, i5, i6, i7, i8⟩
      have haeS : ∀ pr ∈ Δe, pr.1 ∉ st.trace := by
        intro pr hpr
        have h := hae pr hpr
        show pr.1 ∉ st.trace
        rw [show st.trace = (getClass c.store oi st).2.trace from (getClass_trace _ _ _).symm]
        exact h
      refine ⟨hie, ?_, ?_,
        (x, mkRel oi onm (getClass c.store oi st).1 tn rd d) :: Δe, ?_, ?_, ?_⟩
      · intro y hy
        apply hve
        show y ∈ oi :: (getClass c.store oi st).2.visited
        rw [getClass_visited]
        exact List.mem_cons_of_mem _ hy
      · intro y hy
        apply hte
        show y ∈ (getClass c.store oi st).2.trace
        rw [getClass_trace]
        exact hy
      · rw [hpe]
        show (getClass c.store oi st).2.pushLog ++
            [(x, mkRel oi onm (getClass c.store oi st).1 tn rd d)] ++ Δe = _
        rw [getClass_pushLog, List.append_assoc]
        rfl
      · intro k hk
        rw [show (x, mkRel oi onm (getClass c.store oi st).1 tn rd d) :: Δe =
            [(x, mkRel oi onm (getClass c.store oi st).1 tn rd d)] ++ Δe from rfl,
          xKeys_append] at hk
        rcases List.mem_append.mp hk with hk | hk
        · simp [xKeys, mkRel] at hk
          exact hk
        · rw [xKeys_nil x Δe (fun pr hpr heq => haeS pr hpr (heq ▸ hxt))] at hk
          exact absurd hk (List.not_mem_nil k)
      · intro pr hpr
        rcases List.mem_cons.mp hpr with hpr | hpr
        · rw [hpr]; exact Or.inl rfl
        · right; exact haeS pr hpr
    · rename_i hg
      refine ⟨hinv₂, ?_, ?_,
        [(x, mkRel oi onm (getClass c.store oi st).1 tn rd d)], ?_, ?_, ?_⟩
      · intro y hy
        show y ∈ (getClass c.store oi st).2.visited
        rw [getClass_visited]; exact hy
      · intro y hy
        show y ∈ (getClass c.store oi st).2.trace
        rw [getClass_trace]; exact hy
      · show (getClass c.store oi st).2.pushLog ++ _ = _
        rw [getClass_pushLog]
      · intro k hk
        simp [xKeys, mkRel] at hk
        exact hk
      · intro pr hpr
        rw [List.mem_singleton.mp hpr]
        exact Or.inl rfl
  · rw [if_neg hp]
    split
    · rename_i hg
      have hoivis : oi ∉ st.visited := by
        have h2 := hg.2
        rwa [getClass_visited] at h2
      have hoitr : oi ∉ st.trace := fun hcon => hoivis (hinv.2.1 oi hcon)
      obtain ⟨i1, i2, i3, i4, i5, i6, i7, i8⟩ := hinv₁
      obtain ⟨hie, hve, hte, Δe, hpe, hae⟩ :=
        he oi
          { (getClass c.store oi st).2 with
            visited := oi :: (getClass c.store oi st).2.visited }
          (List.mem_cons_self _ _)
          (show oi ∉ (getClass c.store oi st).2.trace by
            rw [getClass_trace]; exact hoitr)
          ⟨i1, fun y hy => List.mem_cons_of_mem _ (i2 y hy), i3, i4, i5, i6, i7, i8⟩
      have haeS : ∀ pr ∈ Δe, pr.1 ∉ st.trace := by
        intro pr hpr
        have h := hae pr hpr
        show pr.1 ∉ st.trace
        rw [show st.trace = (getClass c.store oi st).2.trace from
          (getClass_trace _ _ _).symm]
        exact h
      refine ⟨hie, ?_, ?_, Δe, ?_, ?_, ?_⟩
      · intro y hy
        apply hve
        show y ∈ oi :: (getClass c.store oi st).2.visited
        rw [getClass_visited]
        exact List.mem_cons_of_mem _ hy
      · intro y hy
        apply hte
        show y ∈ (getClass c.store oi st).2.trace
        rw [getClass_trace]
        exact hy
      · rw [hpe]
        show (getClass c.store oi st).2.pushLog ++ Δe = _
        rw [getClass_pushLog]
      · intro k hk
        rw [xKeys_nil x Δe (fun pr hpr heq => haeS pr hpr (heq ▸ hxt))] at hk
        exact absurd hk (List.not_mem_nil k)
      · intro pr hpr
        right; exact haeS pr hpr
    · refine ⟨hinv₁, ?_, ?_, [], ?_, ?_, ?_⟩
      · intro y hy
        show y ∈ (getClass c.store oi st).2.visited
        rw [getClass_visited]; exact hy
      · intro y hy
        show y ∈ (getClass c.store oi st).2.trace
        rw [getClass_trace]; exact hy
      · rw [getClass_pushLog, List.append_nil]
      · intro k hk
        exact absurd hk (by simp [xKeys])
      · intro pr hpr
        exact absurd hpr (List.not_mem_nil pr)


theorem loop_inv (c : Ctx) (e : String → TravState → TravState)
    (he : ExpandSpec e) :
    ∀ (records : List Row) (x : String) (d : Nat) (seen : List String)
      (st : TravState), x ∈ st.trace → Inv st →
      (∀ k ∈ xKeys x st.pushLog, k ∈ seen) →
      Inv (loop c e x d records seen st) ∧
      (∀ y ∈ st.visited, y ∈ (loop c e x d records seen st).visited) ∧
      (∀ y ∈ st.trace, y ∈ (loop c e x d records seen st).trace) ∧
      ∃ Δ, (loop c e x d records seen st).pushLog = st.pushLog ++ Δ ∧
        ∀ pr ∈ Δ, pr.1 = x ∨ pr.1 ∉ st.trace := by
  intro records
  induction records with
  | nil =>
    intro x d seen st hxt hinv hseen
    exact ⟨hinv, fun y hy => hy, fun y hy => hy, [], by simp [loop], by simp⟩
  | cons r rest ih =>
    intro x d seen st hxt hinv hseen
    simp only [loop]
    split
    · exact ih x d seen st hxt hinv hseen
    · split
      · exact ih x d seen st hxt hinv hseen
      · rename_i sc oi onm rd tn heq hnot
        have hfresh : (oi ++ ":" ++ rd) ∉ xKeys x st.pushLog :=
          fun hin => hnot (hseen _ hin)
        obtain ⟨hIs, hVs, hTs, Δh, hPs, hKs, hAs⟩ :=
          hitState_inv c e he x d oi onm rd tn st hxt hinv hfresh
        obtain ⟨hIr, hVr, hTr, Δr, hPr, hAr⟩ :=
          ih x d ((oi ++ ":" ++ rd) :: seen) (hitState c e x d oi onm rd tn st)
            (hTs x hxt) hIs
            (by
              intro k hk
              rw [hPs, xKeys_append] at hk
              rcases List.mem_append.mp hk with hk | hk
              · exact List.mem_cons_of_mem _ (hseen k hk)
              · rw [hKs k hk]; exact List.mem_cons_self _ _)
        refine ⟨hIr, fun y hy => hVr y (hVs y hy), fun y hy => hTr y (hTs y hy),
          Δh ++ Δr, ?_, ?_⟩
        · rw [hPr, hPs, List.append_assoc]
        · intro pr hpr
          rcases List.mem_append.mp hpr with hpr | hpr
          · exact hAs pr hpr
          · rcases hAr pr hpr with h | h
            · exact Or.inl h
            · exact Or.inr (fun hc => h (hTs pr.1 hc))

theorem goE_inv (c : Ctx) :
    ∀ (fuel : Nat) (d : Nat) (i : String) (st : TravState),
      i ∈ st.visited → i ∉ st.trace → Inv st →
      Inv (goE c fuel i d st) ∧
      (∀ y ∈ st.visited, y ∈ (goE c fuel i d st).visited) ∧
      (∀ y ∈ st.trace, y ∈ (goE c fuel i d st).trace) ∧
      ∃ Δ, (goE c fuel i d st).pushLog = st.pushLog ++ Δ ∧
        ∀ pr ∈ Δ, pr.1 ∉ st.trace := by
  intro fuel
  induction fuel with
  | zero =>
    intro d i st hv ht hinv
    exact ⟨hinv, fun y hy => hy, fun y hy => hy, [], by simp [goE], by simp⟩
  | succ fuel ih =>
    intro d i st hv ht hinv
    simp only [goE]
    split
    · exact ⟨hinv, fun y hy => hy, fun y hy => hy, [], by simp, by simp⟩
    · obtain ⟨h1, h2, h3, h4, h5, h6, h7, h8⟩ := hinv
      have hinv' : Inv { st with trace := st.trace ++ [i] } := by
        refine ⟨?_, ?_, h3, ?_, h5, h6, h7, h8⟩
        · exact List.Nodup.append h1 (List.nodup_singleton i)
            (by simpa [List.disjoint_singleton] using ht)
        · intro y hy
          rcases List.mem_append.mp hy with hy | hy
          · exact h2 y hy
          · rw [List.mem_singleton.mp hy]; exact hv
        · intro pr hpr
          exact List.mem_append_left _ (h4 pr hpr)
      split
      · exact ⟨hinv', fun y hy => hy,
          fun y hy => List.mem_append_left _ hy, [], by simp, by simp⟩
      · have hespec : ExpandSpec (fun i' s => goE c fuel i' (d + 1) s) :=
          fun i' s hv' ht' hinv'' => ih (d + 1) i' s hv' ht' hinv''
        obtain ⟨hIl, hVl, hTl, Δl, hPl, hAl⟩ :=
          loop_inv c _ hespec (c.store.rels i) i d []
            { st with trace := st.trace ++ [i] }
            (List.mem_append_right _ (List.mem_singleton.mpr rfl))
            hinv'
            (by
              intro k hk
              have hk' : k ∈ xKeys i st.pushLog := hk
              rw [xKeys_nil i st.pushLog
                (fun pr hpr heq => (ht (heq ▸ h4 pr hpr)).elim)] at hk'
              exact absurd hk' (List.not_mem_nil k))
        refine ⟨hIl, hVl, fun y hy => hTl y (List.mem_append_left _ hy),
          Δl, hPl, ?_⟩
        intro pr hpr
        rcases hAl pr hpr with h | h
        · rw [h]; exact ht
        · exact fun hc => h (List.mem_append_left _ hc)


theorem finalState_inv (c : Ctx) (rootId rootClass : String) :
    Inv (finalState c rootId rootClass) := by
  rw [finalState_eq]
  exact (goE_inv c (c.maxDepth + 1) 1 rootId (initState rootId rootClass)
    (by simp [initState]) (by simp [initState])
    ⟨by simp [initState], by simp [initState], rfl, by simp [initState],
     by simp [initState], by simp [initState, xKeys], by simp [initState],
     by simp [initState]⟩).1

/- ### C4 — at-most-once expansion and termination -/

/-- C4: on every store, the list of nodes whose incident relationship
rows are fetched and expanded (`trace`) has no duplicates — each node is
expanded at most once per traversal — and the traversal is a total
function; on the 3-cycle A → B → C → A with maxDepth 5, it terminates
having expanded exactly A, B and C, once each. -/
theorem c4_expand_once_terminates :
    (∀ (c : Ctx) (rootId rootClass : String),
      (finalState c rootId rootClass).trace.Nodup) ∧
    (finalState { store := cycStore, maxDepth := 5, direction := "both",
                  typeFilter := none, classFilter := none }
        "A" "ClassA").trace = ["A", "B", "C"] := by
  constructor
  · intro c rootId rootClass
    exact (finalState_inv c rootId rootClass).1
  · rw [finalState_eq]; decide

/- ### C5 — per-expansion edge deduplication -/

/-- C5: among the edges pushed while expanding any single node, the pair
(otherId, direction) occurs at most once; parallel rows of different
types between the same nodes collapse to one edge carrying the first
row's type text; and the dedup scope is per expanding node — the same
pair may be reported again from a different expanding node. -/
theorem c5_per_expansion_dedup :
    (∀ (c : Ctx) (rootId rootClass x : String),
      (((finalState c rootId rootClass).pushLog.filter
          (fun pr => pr.1 == x)).map
        (fun pr => (pr.2.sys_id, pr.2.direction))).Nodup) ∧
    edgesOf (handler parStore ⟨3⟩ { sys_id := some "R", depth := some 2 }) =
      [{ name := "A", className := "CA", type := "Runs on",
         direction := "downstream", sys_id := "A", depth := 1 },
       { name := "R", className := "CR", type := "Runs on",
         direction := "upstream", sys_id := "R", depth := 2 }] ∧
    ((edgesOf (handler rstStore ⟨3⟩ { sys_id := some "R", depth := some 2 })).filter
        (fun e => e.sys_id == "Z" && e.direction == "downstream")).length = 2 := by
  refine ⟨?_, ?_, ?_⟩
  · intro c rootId rootClass x
    have h := (finalState_inv c rootId rootClass).2.2.2.2.2.1 x
    exact List.Nodup.of_map (fun q : String × String => q.1 ++ ":" ++ q.2)
      (by rw [List.map_map]; exact h)
  · rw [handler_eval]; decide
  · rw [handler_eval]; decide

/- ### C10 — name falls back to sys_id -/

/-- C10: a reported edge never has an empty name with a nonempty
sys_id (the push site uses `otherName || otherId`); in particular when
the other endpoint is a bare 32-char hex sys_id, whose display name
resolves empty, the edge's name position carries the raw sys_id. -/
theorem c10_name_fallback :
    (∀ (c : Ctx) (rootId rootClass : String),
      ∀ e ∈ (finalState c rootId rootClass).allRels,
        e.name = "" → e.sys_id = "") ∧
    edgesOf (handler hexStore ⟨3⟩ { sys_id := some "R", depth := some 1 }) =
      [{ name := "aaaaaaaaaaaaaaaaaaaaaaaaaaaaaaaa", className := "unknown",
         type := "Related to", direction := "downstream",
         sys_id := "aaaaaaaaaaaaaaaaaaaaaaaaaaaaaaaa", depth := 1 }] := by
  constructor
  · intro c rootId rootClass e he hn
    obtain ⟨h1, h2, h3, h4, h5, h6, h7, h8⟩ := finalState_inv c rootId rootClass
    rw [h3] at he
    obtain ⟨pr, hpr, hpre⟩ := List.mem_map.mp he
    have h := h5 pr hpr
    rw [hpre] at h
    exact h hn
  · rw [handler_eval]; decide

theorem c10_name_fallback_witness :
    ({ name := "", className := "unknown", type := "Related to",
       direction := "downstream", sys_id := "", depth := 1 } : RelNode).sys_id =
      "" :=
  c10_name_fallback.1
    { store := emptyFieldStore, maxDepth := 1, direction := "both",
      typeFilter := none, classFilter := none } "R" "CR"
    { name := "", className := "unknown", type := "Related to",
      direction := "downstream", sys_id := "", depth := 1 }
    (by rw [finalState_eq]; decide) rfl

theorem rowCandidate_store (c : Ctx) (s' : Store) (id : String) (r : Row) :
    rowCandidate { c with store := s' } id r = rowCandidate c id r := rfl

theorem loop_absorb (c : Ctx) (id0 : String)
    (e : String → TravState → TravState) :
    ∀ (records : List Row) (x : String) (d : Nat) (seen : List String)
      (st : TravState),
      loop { c with store := absorbFailedFetch c.store id0 } e x d records seen st =
        loop c e x d records seen st := by
  intro records
  induction records with
  | nil => intro x d seen st; rfl
  | cons r rest ih =>
    intro x d seen st
    simp only [loop, rowCandidate_store]
    split
    · exact ih _ _ _ _
    · split
      · exact ih _ _ _ _
      · rename_i sc oi onm rd tn heq hnot
        rw [show hitState { c with store := absorbFailedFetch c.store id0 }
            e x d oi onm rd tn st = hitState c e x d oi onm rd tn st from rfl]
        exact ih _ _ _ _

theorem goE_absorb (c : Ctx) (id0 : String)
    (hfail : c.store.relsFail id0 = true) :
    ∀ (fuel : Nat) (i : String) (d : Nat) (st : TravState),
      goE { c with store := absorbFailedFetch c.store id0 } fuel i d st =
        goE c fuel i d st := by
  intro fuel
  induction fuel with
  | zero => intro i d st; rfl
  | succ fuel ih =>
    intro i d st
    simp only [goE]
    split
    · rfl
    · by_cases hi : i = id0
      · subst hi
        rw [show ({ c with store := absorbFailedFetch c.store i } : Ctx).store.relsFail i =
            false from by simp [absorbFailedFetch]]
        rw [hfail]
        rw [show ({ c with store := absorbFailedFetch c.store i } : Ctx).store.rels i =
            [] from by simp [absorbFailedFetch]]
        rfl
      · rw [show ({ c with store := absorbFailedFetch c.store id0 } : Ctx).store.relsFail i =
            c.store.relsFail i from by simp [absorbFailedFetch, hi]]
        split
        · rfl
        · rw [show ({ c with store := absorbFailedFetch c.store id0 } : Ctx).store.rels i =
              c.store.rels i from by simp [absorbFailedFetch, hi]]
          rw [loop_absorb]
          exact loop_congr c _ _ i d (fun i' s' => ih i' (d + 1) s') _ _ _


theorem getClass_caches (s : Store) (id : String) (st : TravState) :
    cacheGet (getClass s id st).2.classCache id = some (getClass s id st).1 := by
  unfold getClass
  split
  · rename_i v hv; exact hv
  · split
    · simp [cacheGet]
    · simp [cacheGet]

theorem getClass_idem (s : Store) (id : String) (st : TravState) :
    getClass s id (getClass s id st).2 =
      ((getClass s id st).1, (getClass s id st).2) := by
  have h := getClass_caches s id st
  conv_lhs => rw [getClass.eq_def]
  simp [h]


/- ### C7 — graceful degradation of per-node remote failures -/

/-- C7: a node whose incident-rows fetch throws contributes exactly as
if it had zero relationship rows — the traversal continues and still
returns a (partial) result (concretely, with B's fetch failing the
handler still returns ok with B's edge reported and B's expansion
empty); and the class cache issues at most one remote class lookup per
id per traversal, caches "unknown" on a thrown or empty lookup, and a
repeated lookup is served from the cache with no state change. -/
theorem c7_graceful_degradation :
    (∀ (c : Ctx) (id0 rootId rootClass : String),
      c.store.relsFail id0 = true →
      finalState c rootId rootClass =
        finalState { c with store := absorbFailedFetch c.store id0 }
          rootId rootClass) ∧
    handler failStore ⟨3⟩ { sys_id := some "R", depth := some 3 } =
      Out.ok { root := { name := "R", className := "CR", sys_id := "R" },
               relationships :=
                 [{ name := "A", className := "CA", type := "Related to",
                    direction := "downstream", sys_id := "A", depth := 1 },
                  { name := "R", className := "CR", type := "Related to",
                    direction := "upstream", sys_id := "R", depth := 2 },
                  { name := "B", className := "CB", type := "Related to",
                    direction := "downstream", sys_id := "B", depth := 1 }],
               meta := { depth := 3, direction := "both", total := 3 } } ∧
    (∀ (c : Ctx) (rootId rootClass : String),
      (finalState c rootId rootClass).classLookups.Nodup) ∧
    (∀ (s : Store) (id : String) (st : TravState),
      cacheGet st.classCache id = none → s.classFail id = true →
        (getClass s id st).1 = "unknown" ∧
        cacheGet (getClass s id st).2.classCache id = some "unknown") ∧
    (∀ (s : Store) (id : String) (st : TravState),
      cacheGet st.classCache id = none → s.classFail id = false →
      (s.ci id = none ∨ ∃ r, s.ci id = some r ∧ r.sys_class_name = "") →
        (getClass s id st).1 = "unknown" ∧
        cacheGet (getClass s id st).2.classCache id = some "unknown") ∧
    (∀ (s : Store) (id : String) (st : TravState),
      getClass s id (getClass s id st).2 =
        ((getClass s id st).1, (getClass s id st).2)) := by
  refine ⟨?_, ?_, ?_, ?_, ?_, getClass_idem⟩
  · intro c id0 rootId rootClass h
    rw [finalState_eq, finalState_eq]
    exact (goE_absorb c id0 h (c.maxDepth + 1) rootId 1 _).symm
  · rw [handler_eval]; decide
  · intro c rootId rootClass
    exact (finalState_inv c rootId rootClass).2.2.2.2.2.2.1
  · intro s id st hmiss hfail
    constructor <;> simp [getClass, hmiss, hfail, cacheGet]
  · intro s id st hmiss hfail hci
    rcases hci with hci | ⟨r, hci, hcls⟩
    · constructor <;> simp [getClass, hmiss, hfail, hci, cacheGet]
    · constructor <;> simp [getClass, hmiss, hfail, hci, hcls, cacheGet]

theorem c7_graceful_degradation_witness :
    (finalState { store := failStore, maxDepth := 3, direction := "both",
                  typeFilter := none, classFilter := none } "R" "CR" =
      finalState { store := absorbFailedFetch failStore "B", maxDepth := 3,
                   direction := "both", typeFilter := none,
                   classFilter := none } "R" "CR") ∧
    (getClass (Store.mk (fun _ => none) (fun _ => true) (fun _ => [])
        (fun _ => []) (fun _ => false)) "Q" (initState "R" "CR")).1 =
      "unknown" ∧
    (getClass (Store.mk (fun _ => none) (fun _ => false) (fun _ => [])
        (fun _ => []) (fun _ => false)) "Q" (initState "R" "CR")).1 =
      "unknown" :=
  ⟨c7_graceful_degradation.1
    { store := failStore, maxDepth := 3, direction := "both",
      typeFilter := none, classFilter := none } "B" "R" "CR" (by decide),
   (c7_graceful_degradation.2.2.2.1 _ "Q" (initState "R" "CR") (by decide)
     rfl).1,
   (c7_graceful_degradation.2.2.2.2.1 _ "Q" (initState "R" "CR") (by decide)
     rfl (Or.inl rfl)).1⟩

theorem key_ne_updown (a b : String) :
    a ++ ":" ++ "upstream" ≠ b ++ ":" ++ "downstream" := by
  intro h
  have h2 : (a ++ ":" ++ "upstream").data.reverse.take 8 =
      (b ++ ":" ++ "downstream").data.reverse.take 8 := by rw [h]
  simp only [String.data_append, List.reverse_append, List.append_assoc] at h2
  rw [List.take_append_of_le_length (by decide),
    List.take_append_of_le_length (by decide)] at h2
  exact absurd h2 (by decide)

theorem rowCandidate_dir_cases (c : Ctx) (x : String) (r : Row)
    (oi onm rd tn : String)
    (h : rowCandidate c x r = some (oi, onm, rd, tn)) :
    rd = "upstream" ∨ rd = "downstream" := by
  by_cases hp : extractValue r.parent = x
  · simp only [rowCandidate, hp, if_true] at h
    repeat' split at h
    all_goals simp_all
  · by_cases hc : extractValue r.child = x
    · simp only [rowCandidate, hp, hc, if_true, if_false] at h
      repeat' split at h
      all_goals simp_all
    · simp [rowCandidate, hp, hc] at h

theorem rowCandidate_eq_dir (c1 c2 : Ctx) (x : String) (r : Row)
    (htf : c2.typeFilter = c1.typeFilter) (hd1 : c1.direction = "both") :
    rowCandidate c2 x r =
      match rowCandidate c1 x r with
      | none => none
      | some (oi, onm, rd, tn) =>
        if c2.direction ≠ "both" ∧ rd ≠ c2.direction then none
        else some (oi, onm, rd, tn) := by
  by_cases hp : extractValue r.parent = x
  · simp only [rowCandidate, hp, if_true]
    repeat' split
    all_goals simp_all
  · by_cases hc : extractValue r.child = x
    · simp only [rowCandidate, hp, hc, if_true, if_false]
      repeat' split
      all_goals simp_all
    · simp [rowCandidate, hp, hc]

theorem getClass_canon (s : Store) (seedId seedCls id : String)
    (st : TravState) (h : CacheOK s seedId seedCls st.classCache) :
    (getClass s id st).1 = (if id = seedId then seedCls else classValue s id) ∧
    CacheOK s seedId seedCls (getClass s id st).2.classCache := by
  obtain ⟨hseed, hall⟩ := h
  unfold getClass
  split
  · rename_i v hv
    exact ⟨hall id v hv, hseed, hall⟩
  · rename_i hmiss
    have hid : id ≠ seedId := by
      intro he
      rw [he, hseed] at hmiss
      exact Option.noConfusion hmiss
    split
    · rename_i hfail
      refine ⟨?_, ?_, ?_⟩
      · simp [classValue, hfail, hid]
      · simp [cacheGet, hid, hseed]
      · intro i v hv
        simp only [cacheGet] at hv
        by_cases hi : id = i
        · subst hi
          rw [if_pos rfl] at hv
          simp only [Option.some.injEq] at hv
          subst hv
          simp [classValue, hfail, hid]
        · rw [if_neg hi] at hv
          exact hall i v hv
    · rename_i hfail
      refine ⟨?_, ?_, ?_⟩
      · simp only [classValue, hid, if_neg]
        split
        · simp_all
        · simp [hfail]
      · simp [cacheGet, hid, hseed]
      · intro i v hv
        simp only [cacheGet] at hv
        by_cases hi : id = i
        · subst hi
          rw [if_pos rfl] at hv
          simp only [Option.some.injEq] at hv
          subst hv
          simp only [classValue, hid, if_neg]
          split
          · simp_all
          · simp [hfail]
        · rw [if_neg hi] at hv
          exact hall i v hv

theorem hitState_depth1 (c : Ctx) (hmax : c.maxDepth = 1)
    (e : String → TravState → TravState) (x oi onm rd tn : String)
    (st : TravState) :
    hitState c e x 1 oi onm rd tn st =
      if classPass c.classFilter (getClass c.store oi st).1 = true then
        push (getClass c.store oi st).2 x
          (mkRel oi onm (getClass c.store oi st).1 tn rd 1)
      else (getClass c.store oi st).2 := by
  simp only [hitState, hmax, lt_self_iff_false, false_and, if_false]

theorem loop3 (s : Store) (tf cfl : Option String) (seedId seedCls : String)
    (eb eu ed : String → TravState → TravState) :
    ∀ (records : List Row) (x : String)
      (seenB seenU seenD : List String) (sb su sd : TravState),
      (∀ k, k ∈ seenB ↔ k ∈ seenU ∨ k ∈ seenD) →
      (∀ k ∈ seenU, ∃ a : String, k = a ++ ":" ++ "upstream") →
      (∀ k ∈ seenD, ∃ a : String, k = a ++ ":" ++ "downstream") →
      CacheOK s seedId seedCls sb.classCache →
      CacheOK s seedId seedCls su.classCache →
      CacheOK s seedId seedCls sd.classCache →
      (∀ e, e ∈ sb.allRels ↔ e ∈ su.allRels ∨ e ∈ sd.allRels) →
      ∀ e, e ∈ (loop ⟨s, 1, "both", tf, cfl⟩ eb x 1 records seenB sb).allRels ↔
        (e ∈ (loop ⟨s, 1, "upstream", tf, cfl⟩ eu x 1 records seenU su).allRels ∨
         e ∈ (loop ⟨s, 1, "downstream", tf, cfl⟩ ed x 1 records seenD sd).allRels) := by
  intro records
  induction records with
  | nil =>
    intro x seenB seenU seenD sb su sd hBiff hUsuf hDsuf hOKb hOKu hOKd hEiff
    exact hEiff
  | cons r rest ih =>
    intro x seenB seenU seenD sb su sd hBiff hUsuf hDsuf hOKb hOKu hOKd hEiff
    have hcu := rowCandidate_eq_dir ⟨s, 1, "both", tf, cfl⟩
      ⟨s, 1, "upstream", tf, cfl⟩ x r rfl rfl
    have hcd := rowCandidate_eq_dir ⟨s, 1, "both", tf, cfl⟩
      ⟨s, 1, "downstream", tf, cfl⟩ x r rfl rfl
    simp only [loop]
    cases hcb : rowCandidate ⟨s, 1, "both", tf, cfl⟩ x r with
    | none =>
      rw [hcb] at hcu hcd
      dsimp only at hcu hcd
      simp only [hcb, hcu, hcd]
      exact ih x seenB seenU seenD sb su sd hBiff hUsuf hDsuf hOKb hOKu hOKd hEiff
    | some cand =>
      obtain ⟨oi, onm, rd0, tn⟩ := cand
      rw [hcb] at hcu hcd
      dsimp only at hcu hcd
      rcases rowCandidate_dir_cases _ _ _ _ _ _ _ hcb with hrd | hrd
      · subst hrd
        rw [if_neg (by decide)] at hcu
        rw [if_pos (by decide)] at hcd
        simp only [hcb, hcu, hcd]
        by_cases hk : (oi ++ ":" ++ "upstream") ∈ seenB
        · have hku : (oi ++ ":" ++ "upstream") ∈ seenU := by
            rcases (hBiff _).mp hk with h | h
            · exact h
            · obtain ⟨a, ha⟩ := hDsuf _ h
              exact absurd ha (key_ne_updown oi a)
          rw [if_pos hk, if_pos hku]
          exact ih x seenB seenU seenD sb su sd hBiff hUsuf hDsuf hOKb hOKu hOKd hEiff
        · have hku : (oi ++ ":" ++ "upstream") ∉ seenU :=
            fun hc => hk ((hBiff _).mpr (Or.inl hc))
          rw [if_neg hk, if_neg hku]
          simp only [hitState_depth1 ⟨s, 1, "both", tf, cfl⟩ rfl,
            hitState_depth1 ⟨s, 1, "upstream", tf, cfl⟩ rfl]
          obtain ⟨hvb, hOKb'⟩ := getClass_canon s seedId seedCls oi sb hOKb
          obtain ⟨hvu, hOKu'⟩ := getClass_canon s seedId seedCls oi su hOKu
          rw [hvb, hvu]
          by_cases hp :
              classPass cfl (if oi = seedId then seedCls else classValue s oi) = true
          · rw [if_pos hp, if_pos hp]
            apply ih x _ _ seenD _ _ sd
            · intro k
              simp only [List.mem_cons]
              have := hBiff k
              tauto
            · intro k hkm
              rcases List.mem_cons.mp hkm with h | h
              · exact ⟨oi, h⟩
              · exact hUsuf k h
            · exact hDsuf
            · rw [push_classCache]; exact hOKb'
            · rw [push_classCache]; exact hOKu'
            · exact hOKd
            · intro e
              simp only [push_allRels, getClass_allRels, List.mem_append,
                List.mem_singleton]
              have := hEiff e
              tauto
          · rw [if_neg hp, if_neg hp]
            apply ih x _ _ seenD _ _ sd
            · intro k
              simp only [List.mem_cons]
              have := hBiff k
              tauto
            · intro k hkm
              rcases List.mem_cons.mp hkm with h | h
              · exact ⟨oi, h⟩
              · exact hUsuf k h
            · exact hDsuf
            · exact hOKb'
            · exact hOKu'
            · exact hOKd
            · intro e
              rw [getClass_allRels, getClass_allRels]
              exact hEiff e
      · subst hrd
        rw [if_pos (by decide)] at hcu
        rw [if_neg (by decide)] at hcd
        simp only [hcb, hcu, hcd]
        by_cases hk : (oi ++ ":" ++ "downstream") ∈ seenB
        · have hkd : (oi ++ ":" ++ "downstream") ∈ seenD := by
            rcases (hBiff _).mp hk with h | h
            · obtain ⟨a, ha⟩ := hUsuf _ h
              exact absurd ha.symm (key_ne_updown a oi)
            · exact h
          rw [if_pos hk, if_pos hkd]
          exact ih x seenB seenU seenD sb su sd hBiff hUsuf hDsuf hOKb hOKu hOKd hEiff
        · have hkd : (oi ++ ":" ++ "downstream") ∉ seenD :=
            fun hc => hk ((hBiff _).mpr (Or.inr hc))
          rw [if_neg hk, if_neg hkd]
          simp only [hitState_depth1 ⟨s, 1, "both", tf, cfl⟩ rfl,
            hitState_depth1 ⟨s, 1, "downstream", tf, cfl⟩ rfl]
          obtain ⟨hvb, hOKb'⟩ := getClass_canon s seedId seedCls oi sb hOKb
          obtain ⟨hvd, hOKd'⟩ := getClass_canon s seedId seedCls oi sd hOKd
          rw [hvb, hvd]
          by_cases hp :
              classPass cfl (if oi = seedId then seedCls else classValue s oi) = true
          · rw [if_pos hp, if_pos hp]
            apply ih x _ seenU _ _ su _
            · intro k
              simp only [List.mem_cons]
              have := hBiff k
              tauto
            · exact hUsuf
            · intro k hkm
              rcases List.mem_cons.mp hkm with h | h
              · exact ⟨oi, h⟩
              · exact hDsuf k h
            · rw [push_classCache]; exact hOKb'
            · exact hOKu
            · rw [push_classCache]; exact hOKd'
            · intro e
              simp only [push_allRels, getClass_allRels, List.mem_append,
                List.mem_singleton]
              have := hEiff e
              tauto
          · rw [if_neg hp, if_neg hp]
            apply ih x _ seenU _ _ su _
            · intro k
              simp only [List.mem_cons]
              have := hBiff k
              tauto
            · exact hUsuf
            · intro k hkm
              rcases List.mem_cons.mp hkm with h | h
              · exact ⟨oi, h⟩
              · exact hDsuf k h
            · exact hOKb'
            · exact hOKu
            · exact hOKd'
            · intro e
              rw [getClass_allRels, getClass_allRels]
              exact hEiff e

theorem rootResolve_direction (s : Store) (args : Args) (x : String) :
    rootResolve s { args with direction := x } = rootResolve s args := rfl

theorem initCacheOK (s : Store) (rid rc : String) :
    CacheOK s rid rc (initState rid rc).classCache := by
  constructor
  · simp [initState, cacheGet]
  · intro id v hv
    simp only [initState, cacheGet] at hv
    split at hv
    · simp_all
    · exact absurd hv (by simp)

theorem goE_two (s : Store) (dir : String) (tf cfl : Option String)
    (i : String) (st : TravState) :
    goE ⟨s, 1, dir, tf, cfl⟩ 2 i 1 st =
      if s.relsFail i then { st with trace := st.trace ++ [i] }
      else loop ⟨s, 1, dir, tf, cfl⟩
        (fun i' s' => goE ⟨s, 1, dir, tf, cfl⟩ 1 i' 2 s') i 1 (s.rels i) []
        { st with trace := st.trace ++ [i] } := by
  show (if 1 > (1 : Nat) then st
    else if s.relsFail i then { st with trace := st.trace ++ [i] }
    else loop ⟨s, 1, dir, tf, cfl⟩
      (fun i' s' => goE ⟨s, 1, dir, tf, cfl⟩ 1 i' 2 s') i 1 (s.rels i) []
      { st with trace := st.trace ++ [i] }) = _
  rw [if_neg (by omega)]

theorem finalState3 (s : Store) (tf cfl : Option String) (rid rc : String) :
    ∀ e, e ∈ (finalState ⟨s, 1, "both", tf, cfl⟩ rid rc).allRels ↔
      (e ∈ (finalState ⟨s, 1, "upstream", tf, cfl⟩ rid rc).allRels ∨
       e ∈ (finalState ⟨s, 1, "downstream", tf, cfl⟩ rid rc).allRels) := by
  intro e
  rw [finalState_eq, finalState_eq, finalState_eq]
  rw [show (goE ⟨s, 1, "both", tf, cfl⟩
      ((⟨s, 1, "both", tf, cfl⟩ : Ctx).maxDepth + 1) rid 1 (initState rid rc)) =
    goE ⟨s, 1, "both", tf, cfl⟩ 2 rid 1 (initState rid rc) from rfl]
  rw [show (goE ⟨s, 1, "upstream", tf, cfl⟩
      ((⟨s, 1, "upstream", tf, cfl⟩ : Ctx).maxDepth + 1) rid 1 (initState rid rc)) =
    goE ⟨s, 1, "upstream", tf, cfl⟩ 2 rid 1 (initState rid rc) from rfl]
  rw [show (goE ⟨s, 1, "downstream", tf, cfl⟩
      ((⟨s, 1, "downstream", tf, cfl⟩ : Ctx).maxDepth + 1) rid 1 (initState rid rc)) =
    goE ⟨s, 1, "downstream", tf, cfl⟩ 2 rid 1 (initState rid rc) from rfl]
  rw [goE_two, goE_two, goE_two]
  by_cases hrf : s.relsFail rid
  · rw [if_pos hrf, if_pos hrf, if_pos hrf]
    simp [initState]
  · rw [if_neg hrf, if_neg hrf, if_neg hrf]
    apply loop3 s tf cfl rid rc _ _ _ (s.rels rid) rid [] [] []
    · intro k; simp
    · intro k hk; exact absurd hk (List.not_mem_nil k)
    · intro k hk; exact absurd hk (List.not_mem_nil k)
    · exact initCacheOK s rid rc
    · exact initCacheOK s rid rc
    · exact initCacheOK s rid rc
    · intro e'; simp [initState]

/- ### C8 — direction-union equivalence -/

/-- C8 (counterexample): with maxDepth 2 on `dirStore`, the both-run
reports the upstream edge to B while neither the upstream-run nor the
downstream-run does — the union of the single-direction runs' edge sets
is strictly smaller than the both-run's, because the direction filter
also prunes the search frontier. -/
theorem c8_union_counterexample :
    ({ name := "B", className := "CB", type := "Related to",
       direction := "upstream", sys_id := "B", depth := 2 } : RelNode) ∈
      edgesOf (handler dirStore ⟨3⟩
        { sys_id := some "R", depth := some 2, direction := "both" }) ∧
    ({ name := "B", className := "CB", type := "Related to",
       direction := "upstream", sys_id := "B", depth := 2 } : RelNode) ∉
      edgesOf (handler dirStore ⟨3⟩
        { sys_id := some "R", depth := some 2, direction := "upstream" }) ∧
    ({ name := "B", className := "CB", type := "Related to",
       direction := "upstream", sys_id := "B", depth := 2 } : RelNode) ∉
      edgesOf (handler dirStore ⟨3⟩
        { sys_id := some "R", depth := some 2, direction := "downstream" }) := by
  refine ⟨?_, ?_, ?_⟩ <;> rw [handler_eval] <;> decide

/-- C8 (amended): when the effective (clamped) depth is 1 — only the
root node is expanded — the union of the edge sets of the upstream-run
and the downstream-run equals the edge set of the both-run, for every
store, configuration and request with impact off. At greater depths the
equivalence fails (see the counterexample) because the direction filter
also restricts which nodes are expanded, not only which edges are
reported. -/
theorem c8_direction_union_depth1 :
    ∀ (s : Store) (cfg : Config) (args : Args),
      args.impact = false →
      clampDepth (args.depth.getD cfg.relDepth) = 1 →
      ∀ e, e ∈ edgesOf (handler s cfg { args with direction := "both" }) ↔
        (e ∈ edgesOf (handler s cfg { args with direction := "upstream" }) ∨
         e ∈ edgesOf (handler s cfg { args with direction := "downstream" })) := by
  intro s cfg args him hd e
  simp only [handler, him, hd, Bool.false_eq_true, if_false, Int.toNat_one]
  rw [show rootResolve s ⟨args.ci_name, args.sys_id, args.depth, "both",
      args.type, args.classFilter, false⟩ = rootResolve s args from rfl]
  rw [show rootResolve s ⟨args.ci_name, args.sys_id, args.depth, "upstream",
      args.type, args.classFilter, false⟩ = rootResolve s args from rfl]
  rw [show rootResolve s ⟨args.ci_name, args.sys_id, args.depth, "downstream",
      args.type, args.classFilter, false⟩ = rootResolve s args from rfl]
  split
  · simp [edgesOf]
  · cases hrr : rootResolve s args with
    | error m => simp [hrr, edgesOf]
    | ok trip =>
      obtain ⟨rid, rn, rc⟩ := trip
      simp only [hrr, edgesOf]
      exact finalState3 s args.type args.classFilter rid rc e

theorem c8_direction_union_depth1_witness :
    ({ name := "A", className := "CA", type := "Related to",
       direction := "downstream", sys_id := "A", depth := 1 } : RelNode) ∈
      edgesOf (handler dirStore ⟨3⟩
        { sys_id := some "R", depth := some 1, direction := "both" }) ↔
    (({ name := "A", className := "CA", type := "Related to",
        direction := "downstream", sys_id := "A", depth := 1 } : RelNode) ∈
      edgesOf (handler dirStore ⟨3⟩
        { sys_id := some "R", depth := some 1, direction := "upstream" }) ∨
     ({ name := "A", className := "CA", type := "Related to",
        direction := "downstream", sys_id := "A", depth := 1 } : RelNode) ∈
      edgesOf (handler dirStore ⟨3⟩
        { sys_id := some "R", depth := some 1, direction := "downstream" })) :=
  c8_direction_union_depth1 dirStore ⟨3⟩ { sys_id := some "R", depth := some 1 }
    rfl (by decide) _

/- ### C1 — root-resolution input validation -/

/-- C1 (counterexample): supplying BOTH `ci_name` and `sys_id` does not
fail with a ValidationError — the handler silently prefers `sys_id`,
resolves the root and performs the traversal, returning `ok`. -/
theorem c1_both_supplied_no_error :
    handler s1 ⟨3⟩ { ci_name := some "nope", sys_id := some "X1" } =
      Out.ok { root := { name := "Root", className := "Cls", sys_id := "X1" },
               relationships := [],
               meta := { depth := 3, direction := "both", total := 0 } } := by
  rw [handler_eval]; decide

/-- C1 (amended): the handler fails with the validation error exactly
when NEITHER `ci_name` nor `sys_id` is supplied (truthy); when `sys_id`
is supplied, `ci_name` is ignored entirely (sys_id takes precedence),
rather than causing an error. -/
theorem c1_root_validation :
    (∀ (s : Store) (cfg : Config) (args : Args),
      truthy args.ci_name = false → truthy args.sys_id = false →
        handler s cfg args = Out.err "Either ci_name or sys_id is required") ∧
    (∀ (s : Store) (cfg : Config) (args : Args) (n : Option String),
      truthy args.sys_id = true →
        handler s cfg { args with ci_name := n } = handler s cfg args) := by
  constructor
  · intro s cfg args h1 h2
    simp [handler, h1, h2]
  · intro s cfg args n h
    simp [handler, rootResolve, h]

theorem c1_root_validation_witness :
    handler s1 ⟨3⟩ {} = Out.err "Either ci_name or sys_id is required" ∧
    handler s1 ⟨3⟩ { ci_name := some "Zed", sys_id := some "X1" } =
      handler s1 ⟨3⟩ { sys_id := some "X1" } :=
  ⟨c1_root_validation.1 s1 ⟨3⟩ {} (by decide) (by decide),
   c1_root_validation.2 s1 ⟨3⟩ { sys_id := some "X1" } (some "Zed") (by decide)⟩

/- ### C3 — depth clamping -/

/-- C3: requested depth is clamped into [1,5], never rejected: the
handler's entire result depends on `depth` only through `clampDepth`,
`maxDepth=0` behaves identically to `maxDepth=1` and `maxDepth=9` to
`maxDepth=5` on every store, and a successful result reports the
clamped depth in `meta.depth`. -/
theorem c3_depth_clamping :
    (∀ d : Int, 1 ≤ clampDepth d ∧ clampDepth d ≤ 5) ∧
    (∀ (s : Store) (cfg : Config) (args : Args) (d : Int),
      handler s cfg { args with depth := some d } =
        handler s cfg { args with depth := some (clampDepth d) }) ∧
    (∀ (s : Store) (cfg : Config) (args : Args),
      handler s cfg { args with depth := some 0 } =
        handler s cfg { args with depth := some 1 }) ∧
    (∀ (s : Store) (cfg : Config) (args : Args),
      handler s cfg { args with depth := some 9 } =
        handler s cfg { args with depth := some 5 }) ∧
    (∀ (s : Store) (cfg : Config) (args : Args) (r : TraversalResult),
      handler s cfg args = Out.ok r →
        r.meta.depth = (clampDepth (args.depth.getD cfg.relDepth)).toNat) := by
  refine ⟨?_, handler_depth_invariant, ?_, ?_, ?_⟩
  · intro d
    exact ⟨le_min (le_max_right d 1) (by norm_num), min_le_right _ _⟩
  · intro s cfg args
    have h := handler_depth_invariant s cfg args 0
    rwa [show clampDepth 0 = 1 by decide] at h
  · intro s cfg args
    have h := handler_depth_invariant s cfg args 9
    rwa [show clampDepth 9 = 5 by decide] at h
  · intro s cfg args r h
    exact (handler_ok_meta s cfg args r h).1

theorem c3_depth_clamping_witness :
    ({ root := { name := "Root", className := "Cls", sys_id := "X1" },
       relationships := [],
       meta := { depth := 5, direction := "both", total := 0 } } :
        TraversalResult).meta.depth =
      (clampDepth ((some (9 : Int)).getD 3)).toNat :=
  c3_depth_clamping.2.2.2.2 s1 ⟨3⟩ { sys_id := some "X1", depth := some 9 } _
    ((handler_eval _ _ _).trans (by decide))

/- ### C6 — Reference Resolver -/

/-- C6: `extractValue` returns the bare string for a string field, the
embedded value for a structured value, and the trailing path segment of
the link for a link-only structure, and empty otherwise;
`extractDisplay` returns the embedded display string when present and a
bare string unless it matches the 32-char lowercase-hex pattern; the
four reference inputs of the spec yield ids id1, id2, id3 and an empty
display name respectively. -/
theorem c6_reference_resolver :
    (∀ s : String, extractValue (.str s) = s) ∧
    (∀ (o : FieldObj) (v : String), o.value = some v → v ≠ "" →
      extractValue (.obj o) = v) ∧
    (∀ (o : FieldObj) (l : String), o.value = none → o.link = some l → l ≠ "" →
      extractValue (.obj o) = lastSegment l) ∧
    (extractValue .null = "" ∧
      ∀ o : FieldObj, o.value = none → o.link = none → extractValue (.obj o) = "") ∧
    (∀ (o : FieldObj) (d : String), o.display_value = some d → d ≠ "" →
      extractDisplay (.obj o) = d) ∧
    (∀ s : String, extractDisplay (.str s) = if isHex32 s then "" else s) ∧
    extractValue (.obj ⟨some "id1", none, none⟩) = "id1" ∧
    extractValue (.obj ⟨none, none, some "https://x/y/id2"⟩) = "id2" ∧
    extractValue (.str "id3") = "id3" ∧
    extractDisplay (.str "id3") = "id3" ∧
    extractValue (.str "aaaaaaaaaaaaaaaaaaaaaaaaaaaaaaaa") =
      "aaaaaaaaaaaaaaaaaaaaaaaaaaaaaaaa" ∧
    extractDisplay (.str "aaaaaaaaaaaaaaaaaaaaaaaaaaaaaaaa") = "" := by
  refine ⟨?_, ?_, ?_, ⟨rfl, ?_⟩, ?_, ?_, ?_, ?_, ?_, ?_, ?_, ?_⟩
  · intro s
    by_cases h : s = "" <;> simp [extractValue, h]
  · intro o v hv hne
    simp [extractValue, hv, hne]
  · intro o l hv hl hne
    simp [extractValue, hv, hl, hne, lastSegment]
  · intro o hv hl
    simp [extractValue, hv, hl]
  · intro o d hd hne
    simp [extractDisplay, hd, hne]
  · intro s
    by_cases h : s = ""
    · subst h; decide
    · by_cases h2 : isHex32 s = true <;> simp [extractDisplay, h, h2]
  all_goals decide

theorem c6_reference_resolver_witness :
    extractValue (.obj ⟨some "idA", some "Disp", some "https://a/b"⟩) = "idA" ∧
    extractValue (.obj ⟨none, none, some "https://x/y/id2"⟩) =
      lastSegment "https://x/y/id2" ∧
    extractDisplay (.obj ⟨some "idA", some "Disp", none⟩) = "Disp" ∧
    extractValue (.obj ⟨none, some "D", none⟩) = "" :=
  ⟨c6_reference_resolver.2.1 _ "idA" rfl (by decide),
   c6_reference_resolver.2.2.1 _ "https://x/y/id2" rfl rfl (by decide),
   c6_reference_resolver.2.2.2.2.1 _ "Disp" rfl (by decide),
   c6_reference_resolver.2.2.2.1.2 _ rfl rfl⟩

/- ### C9 — impact forces upstream -/

/-- C9: with `impact = true` the handler behaves exactly as with
`impact = false, direction = "upstream"` (the supplied direction is
overridden), and a successful result reports `meta.direction =
"upstream"`; with `impact = false` the supplied direction is used and
reported unchanged. -/
theorem c9_impact_forces_upstream :
    (∀ (s : Store) (cfg : Config) (args : Args),
      handler s cfg { args with impact := true } =
        handler s cfg { args with impact := false, direction := "upstream" }) ∧
    (∀ (s : Store) (cfg : Config) (args : Args) (r : TraversalResult),
      args.impact = true → handler s cfg args = Out.ok r →
        r.meta.direction = "upstream") ∧
    (∀ (s : Store) (cfg : Config) (args : Args) (r : TraversalResult),
      args.impact = false → handler s cfg args = Out.ok r →
        r.meta.direction = args.direction) := by
  refine ⟨?_, ?_, ?_⟩
  · intro s cfg args
    rfl
  · intro s cfg args r himp h
    have hm := (handler_ok_meta s cfg args r h).2
    rw [himp] at hm
    simpa using hm
  · intro s cfg args r himp h
    have hm := (handler_ok_meta s cfg args r h).2
    rw [himp] at hm
    simpa using hm

theorem c9_impact_forces_upstream_witness :
    ({ root := { name := "Root", className := "Cls", sys_id := "X1" },
       relationships := [],
       meta := { depth := 3, direction := "upstream", total := 0 } } :
        TraversalResult).meta.direction = "upstream" :=
  c9_impact_forces_upstream.2.1 s1 ⟨3⟩
    { sys_id := some "X1", direction := "downstream", impact := true } _ rfl
    ((handler_eval _ _ _).trans (by decide))

end SN
